import Mathlib

/-!
Verification of the attendance-tracking bot (src/bot.py) against its
specification.  The Python module keeps a global dict
`submissions_by_day : dict[str, set[int]]` mapping an ISO day key to the
set of Discord user ids that submitted that day.  We embed that dict as an
association list `List (String × Finset ℤ)` that preserves Python's dict
semantics: insertion order, update-in-place for existing keys, append for
new keys.
-/

namespace Bot

/-- The in-memory ledger `submissions_by_day`: a Python dict from day-key
strings to sets of user ids, embedded as an insertion-ordered association
list. -/
abbrev Ledger := List (String × Finset ℤ)

/-- Python dict lookup: the value stored at key `d`, if present
(`submissions_by_day[d]` / `.get(d)`). -/
def lookupDay : Ledger → String → Option (Finset ℤ)
  | [], _ => none
  | (k, v) :: rest, d => if k = d then some v else lookupDay rest d

/-- Python `submissions_by_day.get(d, set())`: the stored set, or `∅` when the key
is absent. -/
def getDay (l : Ledger) (d : String) : Finset ℤ :=
  (lookupDay l d).getD ∅

/-- Python dict assignment `submissions_by_day[d] = s`: replaces the value
at an existing key in place, otherwise appends the new key at the end
(dict insertion order). -/
def setDay : Ledger → String → Finset ℤ → Ledger
  | [], d, s => [(d, s)]
  | (k, v) :: rest, d, s =>
    if k = d then (k, s) :: rest else (k, v) :: setDay rest d s

/-- Python `d in submissions_by_day`. -/
def hasDay (l : Ledger) (d : String) : Bool :=
  (lookupDay l d).isSome

/-- Python `submissions_by_day.setdefault(d, set())` as a state transformer: when
the key is absent a fresh empty entry is appended; otherwise nothing
changes. -/
def setdefaultDay (l : Ledger) (d : String) : Ledger :=
  if hasDay l d then l else l ++ [(d, ∅)]

/-- Recording a submission, `submissions_by_day.setdefault(d, set()).add(i)` (bot.py line 190):
the set stored at `d` (empty when absent) gains `i`. -/
def record (l : Ledger) (d : String) (i : ℤ) : Ledger :=
  setDay l d (insert i (getDay l d))

/-- A sequence of `record` operations applied left to right. -/
def applyRecords (l : Ledger) (ops : List (String × ℤ)) : Ledger :=
  ops.foldl (fun acc op => record acc op.1 op.2) l

/-- Python `sorted(s)` on a set of ids: the ascending list of its
elements. -/
def sortedIds (s : Finset ℤ) : List ℤ :=
  s.sort (· ≤ ·)

-- ### Association-list lemmas (dict semantics)

theorem lookupDay_setDay_self (l : Ledger) (d : String) (s : Finset ℤ) :
    lookupDay (setDay l d s) d = some s := by
  induction l with
  | nil => simp [setDay, lookupDay]
  | cons kv rest ih =>
    obtain ⟨k, v⟩ := kv
    by_cases h : k = d <;> simp [setDay, lookupDay, h, ih]

theorem lookupDay_setDay_ne (l : Ledger) (d k : String) (s : Finset ℤ)
    (h : k ≠ d) : lookupDay (setDay l d s) k = lookupDay l k := by
  induction l with
  | nil => simp [setDay, lookupDay, Ne.symm h]
  | cons kv rest ih =>
    obtain ⟨k', v⟩ := kv
    by_cases h' : k' = d
    · subst h'
      simp [setDay, lookupDay, Ne.symm h]
    · simp [setDay, lookupDay, h', ih]

theorem setDay_setDay (l : Ledger) (d : String) (s s' : Finset ℤ) :
    setDay (setDay l d s) d s' = setDay l d s' := by
  induction l with
  | nil => simp [setDay]
  | cons kv rest ih =>
    obtain ⟨k, v⟩ := kv
    by_cases h : k = d <;> simp [setDay, h, ih]

theorem setDay_lookup_self (l : Ledger) (d : String) (s : Finset ℤ)
    (h : lookupDay l d = some s) : setDay l d s = l := by
  induction l with
  | nil => simp [lookupDay] at h
  | cons kv rest ih =>
    obtain ⟨k, v⟩ := kv
    by_cases h' : k = d
    · subst h'
      simp [lookupDay] at h
      simp [setDay, h]
    · simp [lookupDay, h'] at h
      simp [setDay, h', ih h]

theorem getDay_setDay_self (l : Ledger) (d : String) (s : Finset ℤ) :
    getDay (setDay l d s) d = s := by
  simp [getDay, lookupDay_setDay_self]

theorem setDay_absent (l : Ledger) (d : String) (s : Finset ℤ)
    (h : hasDay l d = false) : setDay l d s = l ++ [(d, s)] := by
  induction l with
  | nil => simp [setDay]
  | cons kv rest ih =>
    obtain ⟨k, v⟩ := kv
    by_cases h' : k = d
    · subst h'
      simp [hasDay, lookupDay] at h
    · simp [hasDay, lookupDay, h'] at h
      simp [setDay, h', ih (by simp [hasDay, h])]

theorem lookupDay_append_absent (l : Ledger) (d k : String) (s : Finset ℤ)
    (h : k ≠ d) : lookupDay (l ++ [(d, s)]) k = lookupDay l k := by
  induction l with
  | nil => simp [lookupDay, Ne.symm h]
  | cons kv rest ih =>
    obtain ⟨k', v⟩ := kv
    by_cases h' : k' = k <;> simp [lookupDay, h', ih]

-- ### Submission detector (bot.py on_message, lines 163-184)

/-- An inbound chat message as the detector sees it: author id, channel id,
attachment filenames, and text content. -/
structure Msg where
  authorId : ℤ
  channelId : ℤ
  attachments : List String
  content : String

/-- Python `s.endswith(suffix)`: case-sensitive suffix match. -/
def strEndsWith (s suf : String) : Bool :=
  suf.data.isSuffixOf s.data

/-- Python `pat in s`: substring containment. -/
def strContains (s pat : String) : Bool :=
  decide (pat.data <:+: s.data)

/-- Python `s.lower()`: every character lowercased. -/
def strToLower (s : String) : String :=
  ⟨s.data.map Char.toLower⟩

/-- The recognized spreadsheet extensions (bot.py line 167). -/
def SPREADSHEET_EXTS : List String := [".xlsx", ".xls", ".csv", ".ods"]

/-- The list `google_sheets_keywords` (bot.py lines 174-178). -/
def GOOGLE_KEYWORDS : List String :=
  ["docs.google.com/spreadsheets", "sheets.google.com", "drive.google.com"]

/-- The attachment loop (bot.py lines 166-170): some attachment filename
ends with a recognized spreadsheet extension. -/
def attachmentDetected (m : Msg) : Bool :=
  m.attachments.any (fun f => SPREADSHEET_EXTS.any (fun e => strEndsWith f e))

/-- The link loop (bot.py lines 173-184): runs only when the content is
non-empty (Python string truthiness), and looks for each keyword inside the
lowercased content. -/
def linkDetected (m : Msg) : Bool :=
  decide (m.content ≠ "") &&
    GOOGLE_KEYWORDS.any (fun k => strContains (strToLower m.content) k)

/-- The flag `spreadsheet_detected` at the end of the detection block (bot.py lines
163-184): the attachment rule first, the link rule only when it failed. -/
def detect (m : Msg) : Bool :=
  if attachmentDetected m then true else linkDetected m

/-- The classifier as the specification words it: rules in order, first
match wins — an attachment with a recognized extension, else a recognized
link substring in the text compared case-insensitively, else not a
submission.  (The recognized substrings are lowercase, so case-insensitive
containment is containment in the lowercased text.) -/
def specClassify (m : Msg) : Bool :=
  if m.attachments.any (fun f => SPREADSHEET_EXTS.any (fun e => strEndsWith f e)) then
    true
  else if GOOGLE_KEYWORDS.any (fun k => strContains (strToLower m.content) k) then
    true
  else
    false

-- ### Roster partition (bot.py _get_today_sets, lines 239-245)

/-- One roster entry of `guild.members`: id, bot flag, display name. -/
structure Member where
  id : ℤ
  bot : Bool
  displayName : String

/-- The set comprehension `{m.id for m in guild.members if not m.bot}` of eligible member ids (bot.py line 242). -/
def memberIds (roster : List Member) : Finset ℤ :=
  ((roster.filter (fun m => !m.bot)).map Member.id).toFinset

/-- Function `_get_today_sets` (bot.py lines 239-245): today's recorded ids
intersected with the eligible member ids, and the rest of the members. -/
def getTodaySets (l : Ledger) (today : String) (roster : List Member) :
    Finset ℤ × Finset ℤ :=
  let todayIds := getDay l today
  let ids := memberIds roster
  let submitted := todayIds ∩ ids
  (submitted, ids \ submitted)

-- ### Report formatting (bot.py lines 247-319)

/-- The line loop of the `submissions` command (bot.py lines 256-259):
one line per id in ascending order, the display name when the member
resolves, the raw id otherwise. -/
def reportSubmissionsLines (s : Finset ℤ) (resolve : ℤ → Option String) :
    List String :=
  (sortedIds s).map (fun uid =>
    match resolve uid with
    | some name => "✅ " ++ name
    | none => "✅ " ++ toString uid)

/-- The line loop of the `notsubmitted` command (bot.py lines 278-281). -/
def reportNotSubmittedLines (s : Finset ℤ) (resolve : ℤ → Option String) :
    List String :=
  (sortedIds s).map (fun uid =>
    match resolve uid with
    | some name => "❌ " ++ name
    | none => "❌ " ++ toString uid)

/-- The submitted section of `dailyreport` (bot.py lines 299-302): ids in
ascending order, but only those that resolve — the `if ctx.guild.get_member(uid)`
filter drops unresolved ids. -/
def dailySubmittedLines (s : Finset ℤ) (resolve : ℤ → Option String) :
    List String :=
  (sortedIds s).filterMap (fun uid => (resolve uid).map (fun name => "✅ " ++ name))

/-- The not-submitted section of `dailyreport` (bot.py lines 306-309). -/
def dailyNotSubmittedLines (s : Finset ℤ) (resolve : ℤ → Option String) :
    List String :=
  (sortedIds s).filterMap (fun uid => (resolve uid).map (fun name => "❌ " ++ name))

-- ### Persistence (bot.py load_data / save_data, lines 34-51)

/-- A JSON value standing where a day's id list is expected: either a list
of integers (which `set(v)` turns into a set) or anything else, on which
`set(v)` raises and the load loop is abandoned. -/
inductive JsonVal where
  | ints : List ℤ → JsonVal
  | malformedVal : JsonVal

/-- The durable file as `load_data` can find it: missing, present but not
parseable as a JSON object (`json.load` or `.items()` raises), or parsed
into an ordered list of key/value pairs. -/
inductive DurableFile where
  | absent : DurableFile
  | unparseable : DurableFile
  | parsed : List (String × JsonVal) → DurableFile

/-- The load loop `for k, v in raw.items(): submissions_by_day[k] = set(v)`
(bot.py lines 39-40): entries are assigned left to right; a value on which
`set(v)` raises stops the loop (the exception is caught and logged by the
surrounding handler), keeping the assignments already made. -/
def loadLoop : Ledger → List (String × JsonVal) → Ledger
  | acc, [] => acc
  | acc, (k, JsonVal.ints v) :: rest => loadLoop (setDay acc k v.toFinset) rest
  | acc, (_, JsonVal.malformedVal) :: _ => acc

/-- Function `load_data` (bot.py lines 34-43) as a function of the file and the
ledger it mutates: a missing file is skipped, a parse failure is caught
leaving the ledger as it was, and a parsed object is folded in entry by
entry. -/
def load_data (file : DurableFile) (l : Ledger) : Ledger :=
  match file with
  | DurableFile.absent => l
  | DurableFile.unparseable => l
  | DurableFile.parsed raw => loadLoop l raw

/-- Function `save_data` (bot.py lines 45-51): the serialized JSON object, each
day's set written as its ascending-sorted list of ids
(`{k: sorted(list(v)) for k, v in submissions_by_day.items()}`). -/
def save_data (l : Ledger) : List (String × List ℤ) :=
  l.map (fun kv => (kv.1, sortedIds kv.2))

/-- A durable file whose every value is a well-formed id list. -/
def intsFile (raw : List (String × List ℤ)) : DurableFile :=
  DurableFile.parsed (raw.map (fun kv => (kv.1, JsonVal.ints kv.2)))

/-- The longest initial run of file entries whose values are well-formed id
lists: exactly the entries the load loop manages to assign before `set(v)`
first raises. -/
def wellFormedInit (raw : List (String × JsonVal)) : List (String × JsonVal) :=
  raw.takeWhile (fun kv =>
    match kv.2 with
    | JsonVal.ints _ => true
    | JsonVal.malformedVal => false)

-- ### Event handlers (bot.py on_message, _heartbeat, clear_submissions)

/-- Handler `on_message` (bot.py lines 146-203) restricted to its effect on the
ledger: the bot's own messages are ignored; otherwise a detected submission
records the author's id under today's key and saves (the returned flag).
The channel gate is `if True:` (line 156), so every channel is processed. -/
def on_message (botId : ℤ) (today : String) (l : Ledger) (m : Msg) :
    Ledger × Bool :=
  if m.authorId = botId then (l, false)
  else if detect m then (record l today m.authorId, true)
  else (l, false)

/-- One iteration of `_heartbeat` (bot.py lines 93-110) on the state it
touches: the remembered `last_day` and the ledger.  When the recomputed
current day differs, the new key's entry is ensured via `setdefault` and a
save is forced (the returned flag). -/
def heartbeatTick (current : String) (st : String × Ledger) :
    (String × Ledger) × Bool :=
  if current ≠ st.1 then ((current, setdefaultDay st.2 current), true)
  else (st, false)

/-- The invocation context of a command: the channel it arrived in and
whether the author has the administrator permission. -/
structure CommandCtx where
  channelId : ℤ
  authorIsAdmin : Bool

/-- Command `clear_submissions` (bot.py lines 321-331): silent outside the target
channel; an explicit denial for non-administrators; otherwise today's entry
is replaced by the empty set and a save runs.  Result: the ledger, the
saved flag, and the messages sent to the channel. -/
def clear_submissions (cfgChannel : ℤ) (today : String) (ctx : CommandCtx)
    (l : Ledger) : Ledger × Bool × List String :=
  if ctx.channelId ≠ cfgChannel then (l, false, [])
  else if !ctx.authorIsAdmin then
    (l, false, ["❌ You need administrator permissions to clear submissions."])
  else
    (setDay l today ∅, true, ["🗑️ Cleared today's submission list."])

-- ### Further helper lemmas

theorem lookupDay_append_self (l : Ledger) (d : String) (s : Finset ℤ)
    (h : lookupDay l d = none) : lookupDay (l ++ [(d, s)]) d = some s := by
  induction l with
  | nil => simp [lookupDay]
  | cons kv rest ih =>
    obtain ⟨k, v⟩ := kv
    by_cases h' : k = d
    · simp [lookupDay, h'] at h
    · simp [lookupDay, h'] at h ⊢
      exact ih h

theorem hasDay_none (l : Ledger) (d : String) (h : hasDay l d = false) :
    lookupDay l d = none := by
  cases hx : lookupDay l d
  · rfl
  · simp [hasDay, hx] at h

theorem setdefaultDay_absent (l : Ledger) (d : String)
    (h : hasDay l d = false) : setdefaultDay l d = l ++ [(d, ∅)] := by
  simp [setdefaultDay, hasDay, hasDay_none l d h]

theorem setdefaultDay_present (l : Ledger) (d : String)
    (h : hasDay l d = true) : setdefaultDay l d = l := by
  simp only [setdefaultDay, h, if_true]

theorem hasDay_setdefaultDay_self (l : Ledger) (d : String) :
    hasDay (setdefaultDay l d) d = true := by
  cases h : hasDay l d
  · rw [setdefaultDay_absent l d h]
    simp only [hasDay]
    rw [lookupDay_append_self l d ∅ (hasDay_none l d h)]
    rfl
  · rw [setdefaultDay_present l d h, h]

theorem lookupDay_setdefaultDay_absent (l : Ledger) (d : String)
    (h : hasDay l d = false) : lookupDay (setdefaultDay l d) d = some ∅ := by
  rw [setdefaultDay_absent l d h]
  exact lookupDay_append_self l d ∅ (hasDay_none l d h)

theorem lookupDay_setdefaultDay_ne (l : Ledger) (d k : String)
    (h : k ≠ d) : lookupDay (setdefaultDay l d) k = lookupDay l k := by
  cases hx : hasDay l d
  · rw [setdefaultDay_absent l d hx]
    exact lookupDay_append_absent l d k ∅ h
  · rw [setdefaultDay_present l d hx]

theorem hasDay_append_ne (l : Ledger) (d k : String) (s : Finset ℤ)
    (h : k ≠ d) : hasDay (l ++ [(d, s)]) k = hasDay l k := by
  simp only [hasDay, lookupDay_append_absent l d k s h]

/-- The load loop over a file whose every value is a well-formed id list
and whose keys are fresh for the accumulator: each entry is appended in
file order. -/
theorem loadLoop_ints_fresh (raw : List (String × List ℤ)) (acc : Ledger)
    (hk : (raw.map Prod.fst).Nodup)
    (hfresh : ∀ k ∈ raw.map Prod.fst, hasDay acc k = false) :
    loadLoop acc (raw.map (fun kv => (kv.1, JsonVal.ints kv.2))) =
      acc ++ raw.map (fun kv => (kv.1, kv.2.toFinset)) := by
  induction raw generalizing acc with
  | nil => simp [loadLoop]
  | cons kv rest ih =>
    obtain ⟨k, v⟩ := kv
    simp only [List.map_cons, loadLoop]
    rw [setDay_absent acc k v.toFinset (hfresh k (by simp))]
    rw [ih (acc ++ [(k, v.toFinset)])
      (by simpa using hk.of_cons)
      (by
        intro k' hk'
        have hne : k' ≠ k := by
          intro heq
          subst heq
          exact (List.nodup_cons.mp (by simpa using hk)).1 hk'
        rw [hasDay_append_ne acc k k' v.toFinset hne]
        exact hfresh k' (by simp [hk']))]
    simp

/-- The load loop stops at the first malformed value: it behaves as the
loop over the longest well-formed initial run of entries. -/
theorem loadLoop_wellFormedInit (raw : List (String × JsonVal)) (l : Ledger) :
    loadLoop l raw = loadLoop l (wellFormedInit raw) := by
  induction raw generalizing l with
  | nil => rfl
  | cons kv rest ih =>
    obtain ⟨k, v⟩ := kv
    cases v with
    | ints v => simp only [loadLoop, wellFormedInit, List.takeWhile_cons_of_pos]; exact ih _
    | malformedVal => simp [loadLoop, wellFormedInit]

-- ### Claim theorems

/-- C1: the submission classifier evaluates its rules in order with first
match winning — a file attachment whose filename case-sensitively ends in
one of `{.xlsx, .xls, .csv, .ods}` classifies as submission; otherwise a
text that case-insensitively contains one of
`{docs.google.com/spreadsheets, sheets.google.com, drive.google.com}`
classifies as submission; otherwise it is not a submission.  The code's
detection block computes exactly that classification. -/
theorem detect_matches_spec_classifier (m : Msg) : detect m = specClassify m := by
  obtain ⟨a, ch, att, cont⟩ := m
  simp only [detect, specClassify, attachmentDetected, linkDetected]
  cases hA : att.any (fun f => SPREADSHEET_EXTS.any (fun e => strEndsWith f e))
  · simp only [Bool.false_eq_true, if_false]
    by_cases hc : cont = ""
    · subst hc
      have hfalse : (GOOGLE_KEYWORDS.any fun k => strContains (strToLower "") k) = false := by
        decide
      simp [hfalse]
    · rw [decide_eq_true (show cont ≠ "" from hc)]
      cases hG : GOOGLE_KEYWORDS.any (fun k => strContains (strToLower cont) k) <;>
        simp [hG]
  · simp [hA]

/-- C2: the roster partition yields disjoint sets whose union is exactly
the non-bot roster identities, and an identity recorded in the ledger for
that day but absent from the roster appears in neither output. -/
theorem getTodaySets_partition (l : Ledger) (d : String) (roster : List Member) :
    (getTodaySets l d roster).1 ∩ (getTodaySets l d roster).2 = ∅ ∧
    (getTodaySets l d roster).1 ∪ (getTodaySets l d roster).2 = memberIds roster ∧
    (∀ i, i ∈ getDay l d → i ∉ memberIds roster →
      i ∉ (getTodaySets l d roster).1 ∧ i ∉ (getTodaySets l d roster).2) := by
  refine ⟨?_, ?_, ?_⟩
  · simp only [getTodaySets]
    exact Finset.inter_sdiff_self _ _
  · simp only [getTodaySets]
    exact Finset.union_sdiff_of_subset Finset.inter_subset_right
  · intro i hi hm
    constructor
    · simp only [getTodaySets, Finset.mem_inter]
      exact fun hh => hm hh.2
    · simp only [getTodaySets, Finset.mem_sdiff]
      exact fun hh => hm hh.1

/-- Witness for C2 at a concrete ledger and roster. -/
theorem getTodaySets_partition_witness :
    (getTodaySets [("2024-01-01", ({1, 9} : Finset ℤ))] "2024-01-01"
        [⟨1, false, "Alice"⟩, ⟨2, false, "Bob"⟩, ⟨3, true, "Robot"⟩]).1 ∩
      (getTodaySets [("2024-01-01", ({1, 9} : Finset ℤ))] "2024-01-01"
        [⟨1, false, "Alice"⟩, ⟨2, false, "Bob"⟩, ⟨3, true, "Robot"⟩]).2 = ∅ ∧
    (getTodaySets [("2024-01-01", ({1, 9} : Finset ℤ))] "2024-01-01"
        [⟨1, false, "Alice"⟩, ⟨2, false, "Bob"⟩, ⟨3, true, "Robot"⟩]).1 ∪
      (getTodaySets [("2024-01-01", ({1, 9} : Finset ℤ))] "2024-01-01"
        [⟨1, false, "Alice"⟩, ⟨2, false, "Bob"⟩, ⟨3, true, "Robot"⟩]).2 =
      memberIds [⟨1, false, "Alice"⟩, ⟨2, false, "Bob"⟩, ⟨3, true, "Robot"⟩] ∧
    (∀ i, i ∈ getDay [("2024-01-01", ({1, 9} : Finset ℤ))] "2024-01-01" →
      i ∉ memberIds [⟨1, false, "Alice"⟩, ⟨2, false, "Bob"⟩, ⟨3, true, "Robot"⟩] →
      i ∉ (getTodaySets [("2024-01-01", ({1, 9} : Finset ℤ))] "2024-01-01"
        [⟨1, false, "Alice"⟩, ⟨2, false, "Bob"⟩, ⟨3, true, "Robot"⟩]).1 ∧
      i ∉ (getTodaySets [("2024-01-01", ({1, 9} : Finset ℤ))] "2024-01-01"
        [⟨1, false, "Alice"⟩, ⟨2, false, "Bob"⟩, ⟨3, true, "Robot"⟩]).2) :=
  getTodaySets_partition [("2024-01-01", ({1, 9} : Finset ℤ))] "2024-01-01"
    [⟨1, false, "Alice"⟩, ⟨2, false, "Bob"⟩, ⟨3, true, "Robot"⟩]

/-- C3: recording is idempotent — re-recording the same (day, id) pair is
absorbed, recording an already-present identity leaves the ledger
unchanged, a duplicated record operation in a sequence has no further
effect, and any day's resulting set lists each identity at most once. -/
theorem record_idempotent (l : Ledger) (d : String) (i : ℤ)
    (ops : List (String × ℤ)) :
    record (record l d i) d i = record l d i ∧
    (i ∈ getDay l d → record l d i = l) ∧
    applyRecords l ((d, i) :: (d, i) :: ops) = applyRecords l ((d, i) :: ops) ∧
    (sortedIds (getDay (applyRecords l ops) d)).Nodup := by
  have habsorb : record (record l d i) d i = record l d i := by
    simp only [record, getDay_setDay_self, Finset.insert_idem, setDay_setDay]
  refine ⟨habsorb, ?_, ?_, ?_⟩
  · intro hi
    cases hl : lookupDay l d with
    | none => simp [getDay, hl] at hi
    | some s =>
      have hs : getDay l d = s := by simp [getDay, hl]
      rw [record, hs, Finset.insert_eq_self.mpr (hs ▸ hi)]
      exact setDay_lookup_self l d s hl
  · simp only [applyRecords, List.foldl_cons]
    rw [show record (record l d i) d i = record l d i from habsorb]
  · exact Finset.sort_nodup _ _

/-- Witness for C3 at a concrete ledger, day and identity. -/
theorem record_idempotent_witness :
    record (record [("2024-01-01", ({5} : Finset ℤ))] "2024-01-01" 5)
        "2024-01-01" 5 =
      record [("2024-01-01", ({5} : Finset ℤ))] "2024-01-01" 5 ∧
    ((5 : ℤ) ∈ getDay [("2024-01-01", ({5} : Finset ℤ))] "2024-01-01" →
      record [("2024-01-01", ({5} : Finset ℤ))] "2024-01-01" 5 =
        [("2024-01-01", ({5} : Finset ℤ))]) ∧
    applyRecords [("2024-01-01", ({5} : Finset ℤ))]
        [("2024-01-01", 5), ("2024-01-01", 5), ("2024-01-02", 7)] =
      applyRecords [("2024-01-01", ({5} : Finset ℤ))]
        [("2024-01-01", 5), ("2024-01-02", 7)] ∧
    (sortedIds (getDay (applyRecords [("2024-01-01", ({5} : Finset ℤ))]
        [("2024-01-02", 7)]) "2024-01-01")).Nodup :=
  record_idempotent [("2024-01-01", ({5} : Finset ℤ))] "2024-01-01" 5
    [("2024-01-02", 7)]

/-- C4 counterexample: when the day rolls over to a key that is already
present in the ledger (an id was recorded for the new day before the tick),
the tick fires but the ledger does NOT gain a new empty entry for the new
key — `setdefault` keeps the existing non-empty set — so the claim as
stated fails at this input. -/
theorem heartbeat_rollover_cex :
    heartbeatTick "2024-01-02"
        ("2024-01-01", [("2024-01-02", ({1} : Finset ℤ))]) =
      (("2024-01-02", [("2024-01-02", ({1} : Finset ℤ))]), true) ∧
    getDay [("2024-01-02", ({1} : Finset ℤ))] "2024-01-02" ≠ (∅ : Finset ℤ) := by
  constructor
  · decide
  · decide

/-- C4 (amended): on a tick whose recomputed current Day Key differs from
the previously observed key, a save is forced, the remembered key is
updated, the ledger afterwards has an entry for the new key — a fresh
empty one when the key was absent, while a ledger that already had an
entry for the new key is left entirely unchanged (in particular that
entry keeps its set) — and every other day's entry is left unchanged. -/
theorem heartbeat_rollover (cur last : String) (l : Ledger) (h : cur ≠ last) :
    (heartbeatTick cur (last, l)).2 = true ∧
    (heartbeatTick cur (last, l)).1.1 = cur ∧
    hasDay (heartbeatTick cur (last, l)).1.2 cur = true ∧
    (hasDay l cur = false →
      lookupDay (heartbeatTick cur (last, l)).1.2 cur = some ∅) ∧
    (hasDay l cur = true → (heartbeatTick cur (last, l)).1.2 = l) ∧
    (∀ k, k ≠ cur → lookupDay (heartbeatTick cur (last, l)).1.2 k = lookupDay l k) := by
  have hstep : heartbeatTick cur (last, l) = ((cur, setdefaultDay l cur), true) := by
    simp [heartbeatTick, h]
  rw [hstep]
  refine ⟨rfl, rfl, hasDay_setdefaultDay_self l cur, ?_, ?_, ?_⟩
  · intro habs
    exact lookupDay_setdefaultDay_absent l cur habs
  · intro hpres
    exact setdefaultDay_present l cur hpres
  · intro k hk
    exact lookupDay_setdefaultDay_ne l cur k hk

/-- Witness for C4 (amended): first the specification's rollover scenario
— only `"2024-01-01" ↦ {1, 2}` is present and the day advances to
`"2024-01-02"`, so the new key's entry is created empty — and then the
present-key scenario of the counterexample — the new key `"2024-01-02"`
already holds `{1}` — where the amended claim promises the ledger is left
entirely unchanged. -/
theorem heartbeat_rollover_witness :
    ((heartbeatTick "2024-01-02"
        ("2024-01-01", [("2024-01-01", ({1, 2} : Finset ℤ))])).2 = true ∧
    (heartbeatTick "2024-01-02"
        ("2024-01-01", [("2024-01-01", ({1, 2} : Finset ℤ))])).1.1 = "2024-01-02" ∧
    hasDay (heartbeatTick "2024-01-02"
        ("2024-01-01", [("2024-01-01", ({1, 2} : Finset ℤ))])).1.2 "2024-01-02" = true ∧
    (hasDay [("2024-01-01", ({1, 2} : Finset ℤ))] "2024-01-02" = false →
      lookupDay (heartbeatTick "2024-01-02"
        ("2024-01-01", [("2024-01-01", ({1, 2} : Finset ℤ))])).1.2 "2024-01-02" =
        some ∅) ∧
    (hasDay [("2024-01-01", ({1, 2} : Finset ℤ))] "2024-01-02" = true →
      (heartbeatTick "2024-01-02"
        ("2024-01-01", [("2024-01-01", ({1, 2} : Finset ℤ))])).1.2 =
        [("2024-01-01", ({1, 2} : Finset ℤ))]) ∧
    (∀ k, k ≠ "2024-01-02" →
      lookupDay (heartbeatTick "2024-01-02"
        ("2024-01-01", [("2024-01-01", ({1, 2} : Finset ℤ))])).1.2 k =
        lookupDay [("2024-01-01", ({1, 2} : Finset ℤ))] k)) ∧
    (hasDay [("2024-01-02", ({1} : Finset ℤ))] "2024-01-02" = true ∧
    (heartbeatTick "2024-01-02"
        ("2024-01-01", [("2024-01-02", ({1} : Finset ℤ))])).1.2 =
      [("2024-01-02", ({1} : Finset ℤ))]) :=
  ⟨heartbeat_rollover "2024-01-02" "2024-01-01"
    [("2024-01-01", ({1, 2} : Finset ℤ))] (by decide),
   by decide,
   (heartbeat_rollover "2024-01-02" "2024-01-01"
    [("2024-01-02", ({1} : Finset ℤ))] (by decide)).2.2.2.2.1 (by decide)⟩

/-- C5: save followed by load is a round trip — for a ledger with distinct
day keys (a dict invariant) loading its serialization back into an empty
ledger reproduces it exactly, and serializing what was loaded from a
well-formed file (distinct keys, each id list strictly ascending)
reproduces the file byte for byte, because save writes each day's set as
its ascending-sorted id list. -/
theorem save_load_roundtrip (x : Ledger) (raw : List (String × List ℤ))
    (hx : (x.map Prod.fst).Nodup)
    (hk : (raw.map Prod.fst).Nodup)
    (hv : ∀ kv ∈ raw, List.Sorted (· < ·) kv.2) :
    load_data (intsFile (save_data x)) [] = x ∧
    save_data (load_data (intsFile raw) []) = raw := by
  constructor
  · have hkeys : ((save_data x).map Prod.fst) = x.map Prod.fst := by
      simp [save_data]
    simp only [intsFile, load_data]
    rw [loadLoop_ints_fresh (save_data x) []
      (by rw [hkeys]; exact hx)
      (by intro k _; rfl)]
    simp only [List.nil_append, save_data, List.map_map]
    calc x.map ((fun kv => (kv.1, kv.2.toFinset)) ∘ fun kv => (kv.1, sortedIds kv.2))
        = x.map id := by
          apply List.map_congr_left
          intro kv _
          simp [sortedIds, Function.comp, Finset.sort_toFinset]
      _ = x := List.map_id x
  · simp only [intsFile, load_data]
    rw [loadLoop_ints_fresh raw [] hk (by intro k _; rfl)]
    simp only [List.nil_append, save_data, List.map_map]
    calc raw.map ((fun kv => (kv.1, sortedIds kv.2)) ∘ fun kv => (kv.1, kv.2.toFinset))
        = raw.map id := by
          apply List.map_congr_left
          intro kv hkv
          have hsorted : List.Sorted (· < ·) kv.2 := hv kv hkv
          have hnd : kv.2.Nodup := hsorted.nodup
          simp only [Function.comp, id, sortedIds]
          rw [(List.toFinset_sort (· ≤ ·) hnd).mpr (hsorted.imp (fun hlt => le_of_lt hlt))]
      _ = raw := List.map_id raw

/-- Witness for C5 at a concrete ledger and file. -/
theorem save_load_roundtrip_witness :
    load_data (intsFile (save_data [("2024-01-01", ({2, 1} : Finset ℤ)),
        ("2024-01-02", ({7} : Finset ℤ))])) [] =
      [("2024-01-01", ({2, 1} : Finset ℤ)), ("2024-01-02", ({7} : Finset ℤ))] ∧
    save_data (load_data (intsFile [("2024-01-01", [1, 2]), ("2024-01-02", [7])]) []) =
      [("2024-01-01", [1, 2]), ("2024-01-02", [7])] :=
  save_load_roundtrip
    [("2024-01-01", ({2, 1} : Finset ℤ)), ("2024-01-02", ({7} : Finset ℤ))]
    [("2024-01-01", [1, 2]), ("2024-01-02", [7])]
    (by decide) (by decide) (by decide)

/-- C6 counterexample: a present file that parses as a JSON object but
whose second value is not an id list (`set(v)` raises on it) leaves the
first entry loaded — the resulting ledger is neither empty nor the fully
parsed contents, so "malformed → an empty ledger is substituted" fails at
this input. -/
theorem load_never_aborts_cex :
    load_data (DurableFile.parsed
        [("2024-01-01", JsonVal.ints [1]), ("2024-01-02", JsonVal.malformedVal)]) [] =
      [("2024-01-01", ({1} : Finset ℤ))] ∧
    [("2024-01-01", ({1} : Finset ℤ))] ≠ ([] : Ledger) := by
  constructor
  · decide
  · decide

/-- C6 (amended): load never aborts — an absent file and an unparseable
file both leave the ledger exactly as it was (empty when it started
empty, nothing substituted), and a parsed file is folded in entry by entry
until the first malformed value, so the result is the load of the longest
well-formed initial run of entries, which need be neither empty nor the
fully parsed contents. -/
theorem load_never_aborts (l : Ledger) (raw : List (String × JsonVal)) :
    load_data DurableFile.absent l = l ∧
    load_data DurableFile.unparseable l = l ∧
    load_data (DurableFile.parsed raw) l =
      load_data (DurableFile.parsed (wellFormedInit raw)) l := by
  refine ⟨rfl, rfl, ?_⟩
  simp only [load_data]
  exact loadLoop_wellFormedInit raw l

/-- C7: an authorized clear replaces today's entry with the empty set,
forces a save, and leaves every other day's entry untouched. -/
theorem clear_today_only (cfg : ℤ) (today : String) (ctx : CommandCtx)
    (l : Ledger) (hch : ctx.channelId = cfg) (hadm : ctx.authorIsAdmin = true) :
    (clear_submissions cfg today ctx l).1 = setDay l today ∅ ∧
    getDay (clear_submissions cfg today ctx l).1 today = ∅ ∧
    (clear_submissions cfg today ctx l).2.1 = true ∧
    (∀ k, k ≠ today →
      lookupDay (clear_submissions cfg today ctx l).1 k = lookupDay l k) := by
  have hres : clear_submissions cfg today ctx l =
      (setDay l today ∅, true, ["🗑️ Cleared today's submission list."]) := by
    simp [clear_submissions, hch, hadm]
  rw [hres]
  refine ⟨rfl, getDay_setDay_self l today ∅, rfl, ?_⟩
  intro k hk
  exact lookupDay_setDay_ne l today k ∅ hk

/-- Witness for C7 at the specification's clear scenario: today's set is
`{5, 6, 7}` and another day is present. -/
theorem clear_today_only_witness :
    (clear_submissions 10 "2024-01-02" ⟨10, true⟩
        [("2024-01-01", ({3} : Finset ℤ)), ("2024-01-02", ({5, 6, 7} : Finset ℤ))]).1 =
      setDay [("2024-01-01", ({3} : Finset ℤ)), ("2024-01-02", ({5, 6, 7} : Finset ℤ))]
        "2024-01-02" ∅ ∧
    getDay (clear_submissions 10 "2024-01-02" ⟨10, true⟩
        [("2024-01-01", ({3} : Finset ℤ)), ("2024-01-02", ({5, 6, 7} : Finset ℤ))]).1
      "2024-01-02" = ∅ ∧
    (clear_submissions 10 "2024-01-02" ⟨10, true⟩
        [("2024-01-01", ({3} : Finset ℤ)), ("2024-01-02", ({5, 6, 7} : Finset ℤ))]).2.1 =
      true ∧
    (∀ k, k ≠ "2024-01-02" →
      lookupDay (clear_submissions 10 "2024-01-02" ⟨10, true⟩
        [("2024-01-01", ({3} : Finset ℤ)), ("2024-01-02", ({5, 6, 7} : Finset ℤ))]).1 k =
      lookupDay [("2024-01-01", ({3} : Finset ℤ)),
        ("2024-01-02", ({5, 6, 7} : Finset ℤ))] k) :=
  clear_today_only 10 "2024-01-02" ⟨10, true⟩
    [("2024-01-01", ({3} : Finset ℤ)), ("2024-01-02", ({5, 6, 7} : Finset ℤ))]
    rfl rfl

/-- C8: in the submitted and not-submitted reports an identity the
resolver cannot name is rendered with the raw identity as fallback text;
in the combined report every rendered line comes from an identity the
resolver did name, so an unresolved identity is silently omitted; and all
three reports list identities in ascending order. -/
theorem report_rendering (s ns : Finset ℤ) (r : ℤ → Option String) (u : ℤ)
    (hu : u ∈ s) (hun : u ∈ ns) (hr : r u = none) :
    ("✅ " ++ toString u) ∈ reportSubmissionsLines s r ∧
    ("❌ " ++ toString u) ∈ reportNotSubmittedLines ns r ∧
    (∀ line ∈ dailySubmittedLines s r,
      ∃ v w, v ∈ s ∧ r v = some w ∧ line = "✅ " ++ w) ∧
    (∀ line ∈ dailyNotSubmittedLines ns r,
      ∃ v w, v ∈ ns ∧ r v = some w ∧ line = "❌ " ++ w) ∧
    List.Sorted (· ≤ ·) (sortedIds s) ∧ List.Sorted (· ≤ ·) (sortedIds ns) := by
  refine ⟨?_, ?_, ?_, ?_, ?_, ?_⟩
  · refine List.mem_map.mpr ⟨u, ?_, ?_⟩
    · simpa [sortedIds, Finset.mem_sort] using hu
    · rw [hr]
  · refine List.mem_map.mpr ⟨u, ?_, ?_⟩
    · simpa [sortedIds, Finset.mem_sort] using hun
    · rw [hr]
  · intro line hline
    obtain ⟨v, hv, hmap⟩ := List.mem_filterMap.mp hline
    cases hrv : r v with
    | none => rw [hrv] at hmap; simp at hmap
    | some w =>
      rw [hrv] at hmap
      simp only [Option.map_some'] at hmap
      exact ⟨v, w, by simpa [sortedIds, Finset.mem_sort] using hv, hrv,
        (Option.some_inj.mp hmap).symm⟩
  · intro line hline
    obtain ⟨v, hv, hmap⟩ := List.mem_filterMap.mp hline
    cases hrv : r v with
    | none => rw [hrv] at hmap; simp at hmap
    | some w =>
      rw [hrv] at hmap
      simp only [Option.map_some'] at hmap
      exact ⟨v, w, by simpa [sortedIds, Finset.mem_sort] using hv, hrv,
        (Option.some_inj.mp hmap).symm⟩
  · exact Finset.sort_sorted _ _
  · exact Finset.sort_sorted _ _

/-- Witness for C8 at a concrete pair of sets and resolver. -/
theorem report_rendering_witness :
    ("✅ " ++ toString (3 : ℤ)) ∈
      reportSubmissionsLines {3} (fun v => if v = 1 then some "Alice" else none) ∧
    ("❌ " ++ toString (3 : ℤ)) ∈
      reportNotSubmittedLines {3} (fun v => if v = 1 then some "Alice" else none) ∧
    (∀ line ∈ dailySubmittedLines {3} (fun v => if v = 1 then some "Alice" else none),
      ∃ v w, v ∈ ({3} : Finset ℤ) ∧
        (if v = 1 then some "Alice" else none) = some w ∧ line = "✅ " ++ w) ∧
    (∀ line ∈ dailyNotSubmittedLines {3} (fun v => if v = 1 then some "Alice" else none),
      ∃ v w, v ∈ ({3} : Finset ℤ) ∧
        (if v = 1 then some "Alice" else none) = some w ∧ line = "❌ " ++ w) ∧
    List.Sorted (· ≤ ·) (sortedIds {3}) ∧ List.Sorted (· ≤ ·) (sortedIds {3}) :=
  report_rendering {3} {3} (fun v => if v = 1 then some "Alice" else none) 3
    (by decide) (by decide) (by decide)

/-- C9: in the configured target channel, a non-administrator invocation of
clear_submissions produces exactly the denial message, leaves the ledger
unchanged and saves nothing; and whenever the command does clear-and-save,
the invoker had the administrator capability. -/
theorem clear_denied_without_admin (cfg : ℤ) (today : String) (ctx : CommandCtx)
    (l : Ledger) (hch : ctx.channelId = cfg) (hadm : ctx.authorIsAdmin = false) :
    clear_submissions cfg today ctx l =
      (l, false, ["❌ You need administrator permissions to clear submissions."]) ∧
    (∀ ctx' : CommandCtx, (clear_submissions cfg today ctx' l).2.1 = true →
      ctx'.authorIsAdmin = true) := by
  constructor
  · simp [clear_submissions, hch, hadm]
  · intro ctx' h
    cases h2 : ctx'.authorIsAdmin
    · exfalso
      by_cases h1 : ctx'.channelId = cfg
      · simp [clear_submissions, h1, h2] at h
      · simp [clear_submissions, h1] at h
    · rfl

/-- Witness for C9: a non-administrator in the target channel is denied. -/
theorem clear_denied_without_admin_witness :
    clear_submissions 10 "2024-01-01" ⟨10, false⟩ [("2024-01-01", ({5} : Finset ℤ))] =
      ([("2024-01-01", ({5} : Finset ℤ))], false,
        ["❌ You need administrator permissions to clear submissions."]) ∧
    (∀ ctx' : CommandCtx,
      (clear_submissions 10 "2024-01-01" ctx'
        [("2024-01-01", ({5} : Finset ℤ))]).2.1 = true →
      ctx'.authorIsAdmin = true) :=
  clear_denied_without_admin 10 "2024-01-01" ⟨10, false⟩
    [("2024-01-01", ({5} : Finset ℤ))] rfl rfl

/-- C10 (implicit): a message not authored by the bot that the detector
classifies as a submission gets its author's id recorded under today's key
(the entry is created when absent) with a save triggered, and the outcome
does not depend on the channel the message arrived in. -/
theorem on_message_records (botId : ℤ) (today : String) (l : Ledger) (m : Msg)
    (hb : m.authorId ≠ botId) (hd : detect m = true) :
    on_message botId today l m = (record l today m.authorId, true) ∧
    m.authorId ∈ getDay (on_message botId today l m).1 today ∧
    (∀ c : ℤ, on_message botId today l { m with channelId := c } =
      on_message botId today l m) := by
  have hres : on_message botId today l m = (record l today m.authorId, true) := by
    simp [on_message, hb, hd]
  refine ⟨hres, ?_, ?_⟩
  · rw [hres]
    simp only [record, getDay_setDay_self]
    exact Finset.mem_insert_self _ _
  · intro c
    obtain ⟨a, ch, att, cont⟩ := m
    rfl

/-- Witness for C10: a spreadsheet attachment from a non-bot author is
recorded into an initially empty ledger. -/
theorem on_message_records_witness :
    on_message 99 "2024-01-01" [] ⟨5, 7, ["report.xlsx"], ""⟩ =
      (record [] "2024-01-01" 5, true) ∧
    (5 : ℤ) ∈ getDay (on_message 99 "2024-01-01" [] ⟨5, 7, ["report.xlsx"], ""⟩).1
      "2024-01-01" ∧
    (∀ c : ℤ, on_message 99 "2024-01-01" []
        { Msg.mk 5 7 ["report.xlsx"] "" with channelId := c } =
      on_message 99 "2024-01-01" [] ⟨5, 7, ["report.xlsx"], ""⟩) :=
  on_message_records 99 "2024-01-01" [] ⟨5, 7, ["report.xlsx"], ""⟩
    (by decide) (by decide)

end Bot
